import Mathlib

/-!
Shallow embedding of `tf/models.py` from the uRNN repository.

The file models, over the real numbers:
  * `fixed_initializer` — the composite-weight initializer that fills a
    `(sum n_in_list, n_out)` matrix block by block, each block either an
    identity block or uniform samples in `[-sqrt(6/(n_in+n_out)), sqrt(6/(n_in+n_out))]`;
  * `linear` — the fused linear map `concat(args) @ W (+ bias)` together with its
    shape validation and the variables it registers;
  * the RNN cells (`tanhRNNCell`, `IRNNCell`, and the unimplemented stubs) and the
    dispatch-by-name helper `RNN`.

Python exceptions are modelled by an explicit error type and `Except`; the numpy
random generator is modelled by an abstract stream `u` of unit samples in `[0,1]`,
with `np.random.uniform(low, high)` embedded as `low + (high - low) * u i r c`.
The numpy slice assignment `matrix[rm:rm+n_in, :] = values` follows numpy's
broadcasting rule: a `(n_in, n_in)` identity array fits the `(n_in, n_out)` slice
exactly when `n_in = n_out` or `n_in = 1` (in the latter case the single value
broadcasts across the row); otherwise numpy raises a ValueError.
-/

namespace URNNModels

/-- Python-level errors raised by the modelled code.  `valueErrorRank` and
`valueErrorDim` are the two `ValueError`s raised by `linear` (each message embeds
the full list of argument shapes, as `str(shapes)` does); `broadcastError` is the
numpy ValueError raised when a block cannot be broadcast into its slice;
`notImplementedError` carries the optional message string of the Python exception. -/
inductive PyError where
  | assertionError : PyError
  | valueErrorRank : List (List (Option Nat)) → PyError
  | valueErrorDim : List (List (Option Nat)) → PyError
  | broadcastError : PyError
  | notImplementedError : Option String → PyError
deriving DecidableEq

/-- The optional message string carried by a modelled Python exception. -/
def PyError.message : PyError → Option String
  | .assertionError => none
  | .valueErrorRank _ => some "Linear is expecting 2D arguments"
  | .valueErrorDim _ => some "Linear expects shape[1] of arguments"
  | .broadcastError => some "could not broadcast input array"
  | .notImplementedError m => m

/-- An error `indicates` a string when its message mentions that string. -/
def PyError.indicates (e : PyError) (s : String) : Prop :=
  ∃ m pre post, e.message = some m ∧ m = pre ++ s ++ post

/-- A TensorFlow tensor: its static shape (`get_shape().as_list()`, where `none`
is an unknown dimension) together with its entries, presented as a total function
on row/column indices (meaningful on the region described by the shape). -/
structure TFTensor where
  shape : List (Option Nat)
  entry : Nat → Nat → ℝ

/-- A plain numpy matrix with its dimensions. -/
structure Mat where
  rows : Nat
  cols : Nat
  entry : Nat → Nat → ℝ

/-- The abstract stream of unit uniform samples feeding `np.random.uniform`:
`u i r c` is the unit sample used for entry `(r, c)` of block `i`. -/
def Sampler : Type := Nat → Nat → Nat → ℝ

/-- `np.random.uniform(low, high)` at position `(r, c)` of block `i`:
`low + (high - low) * u i r c` where `u i r c` is the unit sample in `[0, 1]`. -/
noncomputable def uniform (u : Sampler) (low high : ℝ) (i r c : Nat) : ℝ :=
  low + (high - low) * u i r c

/-- The `values` array computed for block `i` of width `n_in` in
`fixed_initializer`: the identity matrix `np.identity(n_in)` when `i == identity`
(after numpy broadcast into the `(n_in, n_out)` slice, which for `n_in = 1`
replicates the single entry `1` across the row), and otherwise uniform samples
in `[-scale, scale]` with `scale = sqrt(6/(n_in + n_out))`. -/
noncomputable def blockVal (u : Sampler) (n_out : Nat) (identity : Int)
    (i n_in : Nat) : Nat → Nat → ℝ := fun r c =>
  if (i : Int) = identity then
    (if n_in = 1 then 1 else if r = c then 1 else 0)
  else
    uniform u (-(Real.sqrt (6 / (n_in + n_out)))) (Real.sqrt (6 / (n_in + n_out))) i r c

/-- The loop of `fixed_initializer`: starting at block index `i` and row offset
`rm`, write each block's `values` into rows `[rm, rm + n_in)` of the matrix `m`,
advancing the offset.  The identity block's assignment fails with numpy's
broadcast ValueError unless `n_in = n_out` or `n_in = 1`. -/
noncomputable def writeBlocks (u : Sampler) (n_out : Nat) (identity : Int) :
    List Nat → Nat → Nat → (Nat → Nat → ℝ) → Except PyError (Nat → Nat → ℝ)
  | [], _, _, m => .ok m
  | n_in :: rest, i, rm, m =>
    if (i : Int) = identity ∧ ¬(n_in = n_out ∨ n_in = 1) then
      .error .broadcastError
    else
      writeBlocks u n_out identity rest (i + 1) (rm + n_in)
        (fun ρ c => if rm ≤ ρ ∧ ρ < rm + n_in then
            blockVal u n_out identity i n_in (ρ - rm) c
          else m ρ c)

/-- `fixed_initializer(n_in_list, n_out, identity)`: builds the composite weight
matrix of shape `(sum(n_in_list), n_out)` by writing each block in order
(`np.empty` is modelled as an all-zero background, every row of which is
overwritten by the loop). -/
noncomputable def fixed_initializer (u : Sampler) (n_in_list : List Nat)
    (n_out : Nat) (identity : Int) : Except PyError Mat :=
  (writeBlocks u n_out identity n_in_list 0 0 (fun _ _ => 0)).map
    (fun e => ⟨n_in_list.sum, n_out, e⟩)

/-- The shape-validation loop of `linear`: the first argument is the full
`shapes` list (used in the error messages), the second the remaining shapes to
check.  A shape that is not rank 2 raises the rank ValueError; a rank-2 shape
whose second dimension is `None` or `0` (Python's `not shape[1]`) raises the
dimension ValueError; otherwise the second dimension joins `n_in_list`. -/
def collectDims (shapes : List (List (Option Nat))) :
    List (List (Option Nat)) → Except PyError (List Nat)
  | [] => .ok []
  | s :: rest =>
    if s.length ≠ 2 then .error (.valueErrorRank shapes)
    else
      match s.get? 1 with
      | some (some k) =>
          if k = 0 then .error (.valueErrorDim shapes)
          else (collectDims shapes rest).map (fun l => k :: l)
      | _ => .error (.valueErrorDim shapes)

/-- Entry function of `tf.concat(1, args)`: the blocks are the `(width, entry)`
pairs of the arguments in order, and column `j` is looked up in the block it
falls into. -/
def concatEntry : List (Nat × (Nat → Nat → ℝ)) → Nat → Nat → ℝ
  | [], _, _ => 0
  | (w, e) :: rest, b, j => if j < w then e b j else concatEntry rest b (j - w)

/-- Entry function of `tf.matmul(a, m)` where `a` has `k` columns. -/
noncomputable def matmulE (a : Nat → Nat → ℝ) (k : Nat) (m : Nat → Nat → ℝ) :
    Nat → Nat → ℝ :=
  fun b j => ∑ i ∈ Finset.range k, a b i * m i j

/-- The second dimension of a static shape, defaulting to `0`. -/
def featDim (s : List (Option Nat)) : Nat := ((s.get? 1).join).getD 0

/-- `linear(args, output_size, bias, bias_start, identity)`: asserts `args` is
non-empty, validates the shapes collecting `n_in_list`, creates the weight
matrix via `fixed_initializer`, multiplies (the single argument, or the feature-axis
concatenation of all arguments) by it, and, when `bias` holds, also creates the
bias variable initialized to `bias_start` and adds it broadcast over the batch.
The returned list records the variables registered under the scope, in creation
order. -/
noncomputable def linear (u : Sampler) (args : List TFTensor) (output_size : Nat)
    (bias : Bool) (bias_start : ℝ) (identity : Int) :
    Except PyError (TFTensor × List String) :=
  match args with
  | [] => .error .assertionError
  | a0 :: rest =>
    let shapes := (a0 :: rest).map TFTensor.shape
    match collectDims shapes shapes with
    | .error e => .error e
    | .ok n_in_list =>
      match fixed_initializer u n_in_list output_size identity with
      | .error e => .error e
      | .ok matrix =>
        let res : Nat → Nat → ℝ :=
          if rest.isEmpty then matmulE a0.entry (n_in_list.headD 0) matrix.entry
          else matmulE (concatEntry (n_in_list.zip ((a0 :: rest).map TFTensor.entry)))
                 n_in_list.sum matrix.entry
        let rshape : List (Option Nat) := [a0.shape.headD none, some output_size]
        if bias then
          .ok (⟨rshape, fun b j => res b j + bias_start⟩, ["Matrix", "Bias"])
        else
          .ok (⟨rshape, res⟩, ["Matrix"])

/-- The configuration shared by all cell classes: the sizes stored by
`steph_RNNCell.__init__` and exposed by its read-only properties. -/
structure steph_RNNCell where
  input_size : Nat
  state_size : Nat
  output_size : Nat

/-- `tanhRNNCell.__call__`: `new_state = tanh(linear([inputs, state], state_size,
bias=True))` and `output = linear(new_state, output_size, bias=True)`, the two
linear maps living in distinct scopes (hence the two independent samplers);
a raised exception propagates through `bind`. -/
noncomputable def tanhRNNCell.call (cell : steph_RNNCell) (uT uO : Sampler)
    (inputs state : TFTensor) : Except PyError (TFTensor × TFTensor) :=
  (linear uT [inputs, state] cell.state_size true 0 (-1)).bind fun ns =>
    let new_state : TFTensor := ⟨ns.1.shape, fun b j => Real.tanh (ns.1.entry b j)⟩
    (linear uO [new_state] cell.output_size true 0 (-1)).bind fun output =>
      .ok (output.1, new_state)

/-- `IRNNCell.__call__`: as `tanhRNNCell` but with `relu` (`max 0`) in place of
`tanh` and the transition linear map built with `identity = 1`, pointing at the
state block of `[inputs, state]`. -/
noncomputable def IRNNCell.call (cell : steph_RNNCell) (uT uO : Sampler)
    (inputs state : TFTensor) : Except PyError (TFTensor × TFTensor) :=
  (linear uT [inputs, state] cell.state_size true 0 1).bind fun ns =>
    let new_state : TFTensor := ⟨ns.1.shape, fun b j => max 0 (ns.1.entry b j)⟩
    (linear uO [new_state] cell.output_size true 0 (-1)).bind fun output =>
      .ok (output.1, new_state)

/-- `LSTMCell.__call__`: `raise NotImplementedError` (bare, no message). -/
def LSTMCell.call (_cell : steph_RNNCell) (_inputs _state : TFTensor) :
    Except PyError (TFTensor × TFTensor) :=
  .error (.notImplementedError none)

/-- `complex_RNNCell.__call__`: `raise NotImplementedError` (bare, no message). -/
def complex_RNNCell.call (_cell : steph_RNNCell) (_inputs _state : TFTensor) :
    Except PyError (TFTensor × TFTensor) :=
  .error (.notImplementedError none)

/-- `uRNN.__call__`: `raise NotImplementedError` (bare, no message). -/
def uRNN.call (_cell : steph_RNNCell) (_inputs _state : TFTensor) :
    Except PyError (TFTensor × TFTensor) :=
  .error (.notImplementedError none)

/-- The two cell classes the dispatch helper `RNN` can construct. -/
inductive CellKind where
  | tanhRNN : CellKind
  | IRNN : CellKind
deriving DecidableEq

/-- The dispatch-by-name part of `RNN`: `'tanhRNN'` and `'IRNN'` construct the
corresponding cell; any other string reaches `raise NotImplementedError` (bare,
no message) before any further work. -/
def RNN_selectCell (cell_type : String) (input_size state_size output_size : Nat) :
    Except PyError (CellKind × steph_RNNCell) :=
  if cell_type = "tanhRNN" then
    .ok (.tanhRNN, ⟨input_size, state_size, output_size⟩)
  else if cell_type = "IRNN" then
    .ok (.IRNN, ⟨input_size, state_size, output_size⟩)
  else
    .error (.notImplementedError none)

/-! ### Characterization of the initializer loop -/

theorem writeBlocks_ok_spec (u : Sampler) (n_out : Nat) (identity : Int)
    (l : List Nat) (i₀ rm : Nat) (m : Nat → Nat → ℝ)
    (hok : ∀ j (hj : j < l.length), ((i₀ + j : Nat) : Int) = identity →
      (l.get ⟨j, hj⟩ = n_out ∨ l.get ⟨j, hj⟩ = 1)) :
    ∃ f, writeBlocks u n_out identity l i₀ rm m = .ok f ∧
      (∀ ρ c, ρ < rm → f ρ c = m ρ c) ∧
      (∀ j (hj : j < l.length) r c, r < l.get ⟨j, hj⟩ →
        f (rm + (l.take j).sum + r) c =
          blockVal u n_out identity (i₀ + j) (l.get ⟨j, hj⟩) r c) := by
  induction l generalizing i₀ rm m with
  | nil =>
    exact ⟨m, rfl, fun ρ c _ => rfl, fun j hj => absurd hj (by simp)⟩
  | cons n rest ih =>
    have hcond : ¬((i₀ : Int) = identity ∧ ¬(n = n_out ∨ n = 1)) := by
      rintro ⟨h1, h2⟩
      exact h2 (by simpa using hok 0 (by simp) (by simpa using h1))
    obtain ⟨f, hf, houter, hblocks⟩ :=
      ih (i₀ + 1) (rm + n)
        (fun ρ c => if rm ≤ ρ ∧ ρ < rm + n then
            blockVal u n_out identity i₀ n (ρ - rm) c else m ρ c)
        (fun j hj hid => by
          have := hok (j + 1) (by simpa using Nat.succ_lt_succ hj)
            (by rw [show i₀ + (j + 1) = i₀ + 1 + j by omega]; exact hid)
          simpa using this)
    refine ⟨f, ?_, ?_, ?_⟩
    · rw [writeBlocks, if_neg hcond]; exact hf
    · intro ρ c hρ
      rw [houter ρ c (by omega)]
      simp only [if_neg (by omega : ¬(rm ≤ ρ ∧ ρ < rm + n))]
    · intro j hj r c hr
      match j with
      | 0 =>
        have hrn : r < n := by simpa using hr
        rw [List.take_zero, List.sum_nil, Nat.add_zero,
          houter (rm + r) c (by omega)]
        simp only [if_pos (by omega : rm ≤ rm + r ∧ rm + r < rm + n)]
        simp [Nat.add_sub_cancel_left]
      | j + 1 =>
        have hj' : j < rest.length := by simpa using Nat.lt_of_succ_lt_succ hj
        have := hblocks j hj' r c (by simpa using hr)
        rw [show rm + ((n :: rest).take (j + 1)).sum + r
            = rm + n + ((rest.take j)).sum + r by simp; omega]
        rw [this, show i₀ + 1 + j = i₀ + (j + 1) by omega]
        congr 1

theorem writeBlocks_error_spec (u : Sampler) (n_out : Nat) (identity : Int)
    (l : List Nat) :
    ∀ (j : Nat) (hj : j < l.length) (i₀ rm : Nat) (m : Nat → Nat → ℝ),
    ((i₀ + j : Nat) : Int) = identity →
    ¬(l.get ⟨j, hj⟩ = n_out ∨ l.get ⟨j, hj⟩ = 1) →
    (∀ k, k < j → ((i₀ + k : Nat) : Int) ≠ identity) →
    writeBlocks u n_out identity l i₀ rm m = .error .broadcastError := by
  induction l with
  | nil => intro j hj; simp at hj
  | cons n rest ih =>
    intro j hj i₀ rm m hid hbad hbefore
    match j with
    | 0 =>
      rw [writeBlocks, if_pos ⟨by simpa using hid, by simpa using hbad⟩]
    | j + 1 =>
      have h0 : ¬((i₀ : Int) = identity ∧ ¬(n = n_out ∨ n = 1)) := by
        rintro ⟨h1, _⟩
        exact hbefore 0 (Nat.succ_pos _) (by simpa using h1)
      rw [writeBlocks, if_neg h0]
      exact ih j (by simpa using Nat.lt_of_succ_lt_succ hj) (i₀ + 1) (rm + n) _
        (by rw [show i₀ + 1 + j = i₀ + (j + 1) by omega]; exact hid)
        (by simpa using hbad)
        (fun k hk => by
          rw [show i₀ + 1 + k = i₀ + (k + 1) by omega]
          exact hbefore (k + 1) (by omega))

theorem fixed_initializer_spec (u : Sampler) (l : List Nat) (n_out : Nat)
    (identity : Int)
    (hok : ∀ j (hj : j < l.length), ((j : Nat) : Int) = identity →
      (l.get ⟨j, hj⟩ = n_out ∨ l.get ⟨j, hj⟩ = 1)) :
    ∃ M, fixed_initializer u l n_out identity = .ok M ∧
      M.rows = l.sum ∧ M.cols = n_out ∧
      ∀ j (hj : j < l.length) r c, r < l.get ⟨j, hj⟩ →
        M.entry ((l.take j).sum + r) c =
          blockVal u n_out identity j (l.get ⟨j, hj⟩) r c := by
  obtain ⟨f, hf, _, hblocks⟩ :=
    writeBlocks_ok_spec u n_out identity l 0 0 (fun _ _ => 0)
      (by intro j hj h; exact hok j hj (by simpa using h))
  refine ⟨⟨l.sum, n_out, f⟩, ?_, rfl, rfl, ?_⟩
  · rw [fixed_initializer, hf]; rfl
  · intro j hj r c hr
    have := hblocks j hj r c hr
    simpa using this

/-- **C1**: with no identity index (`identity = -1`), `fixed_initializer` on
positive dimensions returns a matrix of shape `(sum(n_in_list), n_out)` in which
every entry of row-block `j` lies within
`[-sqrt(6/(n_in_list[j]+n_out)), sqrt(6/(n_in_list[j]+n_out))]`, the bound
computed from that block's own input dimension; the hypothesis on `u` is the
semantics of the unit uniform samples feeding `np.random.uniform`. -/
theorem fixed_initializer_no_identity_bounds (u : Sampler) (n_in_list : List Nat)
    (n_out : Nat) (_hpos : ∀ n ∈ n_in_list, 0 < n) (_hout : 0 < n_out)
    (hu : ∀ i r c, 0 ≤ u i r c ∧ u i r c ≤ 1) :
    ∃ M, fixed_initializer u n_in_list n_out (-1) = .ok M ∧
      M.rows = n_in_list.sum ∧ M.cols = n_out ∧
      ∀ j (hj : j < n_in_list.length) r c, r < n_in_list.get ⟨j, hj⟩ →
        |M.entry ((n_in_list.take j).sum + r) c| ≤
          Real.sqrt (6 / (n_in_list.get ⟨j, hj⟩ + n_out)) := by
  obtain ⟨M, hM, hr, hc, hb⟩ :=
    fixed_initializer_spec u n_in_list n_out (-1)
      (by intro j hj h; omega)
  refine ⟨M, hM, hr, hc, ?_⟩
  intro j hj r c hrlt
  rw [hb j hj r c hrlt, blockVal, if_neg (by omega), uniform]
  have hs : (0 : ℝ) ≤ Real.sqrt (6 / (n_in_list.get ⟨j, hj⟩ + n_out)) :=
    Real.sqrt_nonneg _
  obtain ⟨h0, h1⟩ := hu j r c
  rw [abs_le]
  constructor <;> nlinarith

/-- Witness for C1 at `n_in_list = [1, 2]`, `n_out = 3`, the all-zero sample
stream. -/
theorem fixed_initializer_no_identity_bounds_witness :
    ∃ M, fixed_initializer (fun _ _ _ => 0) [1, 2] 3 (-1) = .ok M ∧
      M.rows = ([1, 2] : List Nat).sum ∧ M.cols = 3 ∧
      ∀ j (hj : j < ([1, 2] : List Nat).length) r c,
        r < ([1, 2] : List Nat).get ⟨j, hj⟩ →
        |M.entry ((([1, 2] : List Nat).take j).sum + r) c| ≤
          Real.sqrt (6 / (([1, 2] : List Nat).get ⟨j, hj⟩ + 3)) :=
  fixed_initializer_no_identity_bounds (fun _ _ _ => 0) [1, 2] 3
    (by intro n hn; simp at hn; rcases hn with h | h <;> omega)
    (by omega)
    (by intro i r c; norm_num)

/-- **C2 counterexample**: requesting `identity = 0` with `n_in_list = [1]` and
`n_out = 2` — so `n_in_list[0] ≠ n_out` — does not fail with a ShapeError:
numpy broadcasts the `(1,1)` identity array across the `(1,2)` slice, and the
call returns the row `[1, 1]`. -/
theorem fixed_initializer_identity_mismatch_counterexample :
    ∃ M, fixed_initializer (fun _ _ _ => 0) [1] 2 0 = .ok M ∧
      M.rows = 1 ∧ M.cols = 2 ∧ M.entry 0 0 = 1 ∧ M.entry 0 1 = 1 := by
  refine ⟨_, rfl, rfl, rfl, ?_, ?_⟩ <;> norm_num [blockVal]

/-- **C2** (amended): with `identity = i` in range, block `i` of the returned
matrix equals the identity matrix exactly when `n_in_list[i] = n_out`; when
`n_in_list[i] ≠ n_out` and `n_in_list[i] ≠ 1` the call fails with the numpy
broadcast ShapeError; and in the remaining case `n_in_list[i] = 1` the call
succeeds, numpy broadcasting filling row-block `i` with ones instead. -/
theorem fixed_initializer_identity_spec (u : Sampler) (l : List Nat)
    (n_out : Nat) (i : Nat) (hi : i < l.length) :
    (l.get ⟨i, hi⟩ = n_out →
      ∃ M, fixed_initializer u l n_out i = .ok M ∧
        ∀ r c, r < n_out → c < n_out →
          M.entry ((l.take i).sum + r) c = if r = c then 1 else 0) ∧
    (l.get ⟨i, hi⟩ ≠ n_out → l.get ⟨i, hi⟩ ≠ 1 →
      fixed_initializer u l n_out i = .error .broadcastError) ∧
    (l.get ⟨i, hi⟩ = 1 →
      ∃ M, fixed_initializer u l n_out i = .ok M ∧
        ∀ c, M.entry ((l.take i).sum + 0) c = 1) := by
  refine ⟨?_, ?_, ?_⟩
  · intro hout
    obtain ⟨M, hM, _, _, hb⟩ :=
      fixed_initializer_spec u l n_out i
        (fun j hj hid => by
          have hji : j = i := by omega
          subst hji; exact Or.inl hout)
    refine ⟨M, hM, ?_⟩
    intro r c hr hc
    rw [hb i hi r c (by omega), blockVal, if_pos rfl]
    by_cases h1 : l.get ⟨i, hi⟩ = 1
    · have hr0 : r = 0 := by omega
      have hc0 : c = 0 := by omega
      simp [h1, hr0, hc0]
    · rw [if_neg h1]
  · intro hout h1
    have herr := writeBlocks_error_spec u n_out i l i hi 0 0 (fun _ _ => 0)
      (by simp) (by tauto) (fun k hk => by omega)
    rw [fixed_initializer, herr]
    rfl
  · intro h1
    obtain ⟨M, hM, _, _, hb⟩ :=
      fixed_initializer_spec u l n_out i
        (fun j hj hid => by
          have hji : j = i := by omega
          subst hji; exact Or.inr h1)
    refine ⟨M, hM, ?_⟩
    intro c
    rw [hb i hi 0 c (by omega), blockVal, if_pos rfl, if_pos h1]

/-- Witness for C2 at `n_in_list = [2]`, `n_out = 2`, `identity = 0`, the
all-zero sample stream. -/
theorem fixed_initializer_identity_spec_witness :
    ((([2] : List Nat).get ⟨0, by norm_num⟩ = 2 →
      ∃ M, fixed_initializer (fun _ _ _ => 0) [2] 2 0 = .ok M ∧
        ∀ r c, r < 2 → c < 2 →
          M.entry ((([2] : List Nat).take 0).sum + r) c = if r = c then 1 else 0) ∧
    (([2] : List Nat).get ⟨0, by norm_num⟩ ≠ 2 →
      ([2] : List Nat).get ⟨0, by norm_num⟩ ≠ 1 →
      fixed_initializer (fun _ _ _ => 0) [2] 2 0 = .error .broadcastError) ∧
    (([2] : List Nat).get ⟨0, by norm_num⟩ = 1 →
      ∃ M, fixed_initializer (fun _ _ _ => 0) [2] 2 0 = .ok M ∧
        ∀ c, M.entry ((([2] : List Nat).take 0).sum + 0) c = 1)) :=
  fixed_initializer_identity_spec (fun _ _ _ => 0) [2] 2 0 (by norm_num)

/-! ### The fused linear map -/

/-- The list of feature dimensions (`n_in_list`) collected from a list of
argument shapes. -/
def featDims (args : List TFTensor) : List Nat :=
  (args.map TFTensor.shape).map featDim

/-- Well-formedness of a `linear` argument: rank 2 with a statically known,
nonzero second dimension. -/
def GoodArg (t : TFTensor) : Prop :=
  t.shape.length = 2 ∧ ∃ k, t.shape.get? 1 = some (some k) ∧ 0 < k

/-- Violation of `linear`'s preconditions by a shape: not rank 2, or an unknown
or zero second dimension. -/
def badShape (s : List (Option Nat)) : Prop :=
  s.length ≠ 2 ∨ s.get? 1 = some none ∨ s.get? 1 = some (some 0)

theorem collectDims_cons_some (shapes : List (List (Option Nat)))
    (s : List (Option Nat)) (rest : List (List (Option Nat))) (k : Nat)
    (hlen : s.length = 2) (hk : s.get? 1 = some (some k)) (hk0 : k ≠ 0) :
    collectDims shapes (s :: rest) =
      (collectDims shapes rest).map (fun l => k :: l) := by
  rw [collectDims, if_neg (by omega), hk]
  simp [hk0]

theorem collectDims_ok (shapes : List (List (Option Nat)))
    (shl : List (List (Option Nat)))
    (h : ∀ s ∈ shl, s.length = 2 ∧ ∃ k, s.get? 1 = some (some k) ∧ 0 < k) :
    collectDims shapes shl = .ok (shl.map featDim) := by
  induction shl with
  | nil => rfl
  | cons s rest ih =>
    obtain ⟨hlen, k, hk, hkpos⟩ := h s (by simp)
    rw [collectDims_cons_some shapes s rest k hlen hk (by omega),
      ih (fun t ht => h t (by simp [ht]))]
    have hk' : s[1]? = some (some k) := by rw [← List.get?_eq_getElem?]; exact hk
    simp [Except.map, featDim, hk', Option.join]

theorem collectDims_error (shapes : List (List (Option Nat)))
    (shl : List (List (Option Nat)))
    (h : ∃ s ∈ shl, badShape s) :
    ∃ e, collectDims shapes shl = .error e ∧
      (e = .valueErrorRank shapes ∨ e = .valueErrorDim shapes) := by
  induction shl with
  | nil => obtain ⟨s, hs, _⟩ := h; simp at hs
  | cons s rest ih =>
    by_cases hbad : badShape s
    · by_cases hlen : s.length ≠ 2
      · exact ⟨.valueErrorRank shapes, by rw [collectDims, if_pos hlen], Or.inl rfl⟩
      · rcases hbad with h2 | hdim | hdim
        · exact absurd h2 hlen
        · refine ⟨.valueErrorDim shapes, ?_, Or.inr rfl⟩
          rw [collectDims, if_neg hlen, hdim]
        · refine ⟨.valueErrorDim shapes, ?_, Or.inr rfl⟩
          rw [collectDims, if_neg hlen, hdim]
          simp
    · have hrest : ∃ t ∈ rest, badShape t := by
        obtain ⟨t, ht, htbad⟩ := h
        rcases List.mem_cons.mp ht with rfl | ht'
        · exact absurd htbad hbad
        · exact ⟨t, ht', htbad⟩
      obtain ⟨e, he, hor⟩ := ih hrest
      have hlen : s.length = 2 := by
        by_contra hc
        exact hbad (Or.inl hc)
      obtain ⟨x, hx⟩ : ∃ x, s.get? 1 = some x := by
        cases hget : s.get? 1 with
        | none => exact absurd (List.get?_eq_none.mp hget) (by omega)
        | some x => exact ⟨x, rfl⟩
      cases x with
      | none => exact absurd (Or.inr (Or.inl hx)) hbad
      | some k =>
        have hk0 : k ≠ 0 := fun hc => hbad (Or.inr (Or.inr (hc ▸ hx)))
        rw [collectDims_cons_some shapes s rest k hlen hx hk0, he]
        exact ⟨e, rfl, hor⟩

/-- Success characterization of `linear` on well-formed, non-empty arguments:
the result is the matrix product of `args[0]` (one argument) or of the
feature-axis concatenation (several arguments) with the `fixed_initializer`
matrix, plus `bias_start` when `bias` holds, and the registered variables are
exactly `Matrix`, plus `Bias` when `bias` holds. -/
theorem linear_ok_spec (u : Sampler) (a0 : TFTensor) (rest : List TFTensor)
    (output_size : Nat) (bias : Bool) (c : ℝ) (identity : Int)
    (hsh : ∀ t ∈ a0 :: rest, GoodArg t) (M : Mat)
    (hM : fixed_initializer u (featDims (a0 :: rest)) output_size identity = .ok M) :
    linear u (a0 :: rest) output_size bias c identity =
      .ok (⟨[a0.shape.headD none, some output_size],
        fun b j =>
          (if rest.isEmpty then
              matmulE a0.entry ((featDims (a0 :: rest)).headD 0) M.entry b j
            else
              matmulE (concatEntry ((featDims (a0 :: rest)).zip
                ((a0 :: rest).map TFTensor.entry))) (featDims (a0 :: rest)).sum
                M.entry b j)
          + (if bias then c else 0)⟩,
        if bias then ["Matrix", "Bias"] else ["Matrix"]) := by
  have hdims : collectDims ((a0 :: rest).map TFTensor.shape)
      ((a0 :: rest).map TFTensor.shape) = .ok (featDims (a0 :: rest)) :=
    collectDims_ok _ _ (fun s hs => by
      obtain ⟨t, ht, rfl⟩ := List.mem_map.mp hs
      exact hsh t ht)
  rw [linear]
  split
  · next e heq => rw [hdims] at heq; cases heq
  · next nlist heq =>
    rw [hdims] at heq
    injection heq with h
    subst h
    split
    · next e heq2 => rw [hM] at heq2; cases heq2
    · next matrix heq2 =>
      rw [hM] at heq2
      injection heq2 with h2
      subst h2
      have hfun : (if rest.isEmpty then
            matmulE a0.entry ((featDims (a0 :: rest)).headD 0) M.entry
          else
            matmulE (concatEntry ((featDims (a0 :: rest)).zip
              ((a0 :: rest).map TFTensor.entry))) (featDims (a0 :: rest)).sum
              M.entry)
          = fun b j => (if rest.isEmpty then
              matmulE a0.entry ((featDims (a0 :: rest)).headD 0) M.entry b j
            else
              matmulE (concatEntry ((featDims (a0 :: rest)).zip
                ((a0 :: rest).map TFTensor.entry))) (featDims (a0 :: rest)).sum
                M.entry b j) := by
        by_cases hres : rest.isEmpty <;> simp [hres]
      cases bias
      · rw [hfun]; simp
      · rw [hfun]; simp

/-- **C3**: on rank-2 arguments with known nonzero feature dimensions and a
successfully created weight matrix, `linear` succeeds; with exactly one argument
the result is `args[0] @ matrix`, and in general it is
`concat(args, feature axis) @ matrix` with the blocks in argument order; when
`bias` is true the constant `bias_start = c` is added broadcast over the batch,
and when `bias` is false no additive term appears. -/
theorem linear_spec (u : Sampler) (args : List TFTensor) (output_size : Nat)
    (bias : Bool) (c : ℝ) (identity : Int) (hne : args ≠ [])
    (hsh : ∀ t ∈ args, GoodArg t) (M : Mat)
    (hM : fixed_initializer u (featDims args) output_size identity = .ok M) :
    ∃ res vars, linear u args output_size bias c identity = .ok (res, vars) ∧
      (∀ a, args = [a] → ∀ b j, res.entry b j =
        (∑ i ∈ Finset.range (featDim a.shape), a.entry b i * M.entry i j) +
          (if bias then c else 0)) ∧
      (∀ b j, res.entry b j =
        (∑ i ∈ Finset.range (featDims args).sum,
          concatEntry ((featDims args).zip (args.map TFTensor.entry)) b i *
            M.entry i j) + (if bias then c else 0)) := by
  obtain ⟨a0, rest, rfl⟩ : ∃ a0 rest, args = a0 :: rest := by
    cases args with
    | nil => exact absurd rfl hne
    | cons a r => exact ⟨a, r, rfl⟩
  rw [linear_ok_spec u a0 rest output_size bias c identity hsh M hM]
  refine ⟨_, _, rfl, ?_, ?_⟩
  · rintro a ha b j
    obtain ⟨rfl, rfl⟩ : a0 = a ∧ rest = [] := by
      injection ha with h1 h2
      exact ⟨h1, h2⟩
    simp [featDims, matmulE]
  · intro b j
    by_cases hrest : rest.isEmpty
    · obtain rfl : rest = [] := List.isEmpty_iff.mp hrest
      simp only [hrest, if_true, List.isEmpty_nil]
      congr 1
      simp only [featDims, List.map_cons, List.map_nil, List.headD_cons,
        List.sum_cons, List.sum_nil, Nat.add_zero, List.zip_cons_cons,
        List.zip_nil_right, matmulE]
      refine Finset.sum_congr rfl (fun i hi => ?_)
      rw [concatEntry, if_pos (Finset.mem_range.mp hi)]
    · simp [hrest, matmulE]

/-- Witness input: a `(1, 1)` all-zero tensor. -/
def t11 : TFTensor := ⟨[some 1, some 1], fun _ _ => 0⟩

/-- Witness input: a rank-1 shape, violating `linear`'s precondition. -/
def tbad : TFTensor := ⟨[some 2], fun _ _ => 0⟩

/-- Witness input: the all-zero unit-sample stream. -/
def zeroSampler : Sampler := fun _ _ _ => 0

/-- Witness for C3 at a single `(1, 1)` zero tensor, `output_size = 1`,
`bias = false`. -/
theorem linear_spec_witness :
    ∃ M, fixed_initializer zeroSampler (featDims [t11]) 1 (-1) = .ok M ∧
      ∃ res vars, linear zeroSampler [t11] 1 false 0 (-1) = .ok (res, vars) ∧
        (∀ a, ([t11] : List TFTensor) = [a] → ∀ b j, res.entry b j =
          (∑ i ∈ Finset.range (featDim a.shape), a.entry b i * M.entry i j) +
            (if false then (0 : ℝ) else 0)) ∧
        (∀ b j, res.entry b j =
          (∑ i ∈ Finset.range (featDims [t11]).sum,
            concatEntry ((featDims [t11]).zip ([t11].map TFTensor.entry)) b i *
              M.entry i j) + (if false then (0 : ℝ) else 0)) := by
  obtain ⟨M, hM⟩ : ∃ M, fixed_initializer zeroSampler (featDims [t11]) 1 (-1) = .ok M :=
    ⟨_, rfl⟩
  exact ⟨M, hM, linear_spec zeroSampler [t11] 1 false 0 (-1) (by simp)
    (by intro t ht
        simp only [List.mem_singleton] at ht
        subst ht
        exact ⟨rfl, 1, rfl, one_pos⟩) M hM⟩

/-- **C6**: when some argument of `linear` is not rank 2 or has an unknown or
zero feature dimension, the call fails with one of the two shape `ValueError`s,
whose payload (the full list of argument shapes) contains the offending shape,
and no result is returned. -/
theorem linear_shape_error (u : Sampler) (args : List TFTensor)
    (output_size : Nat) (bias : Bool) (c : ℝ) (identity : Int)
    (hne : args ≠ []) (t : TFTensor) (ht : t ∈ args) (hbad : badShape t.shape) :
    ∃ e, linear u args output_size bias c identity = .error e ∧
      (e = .valueErrorRank (args.map TFTensor.shape) ∨
        e = .valueErrorDim (args.map TFTensor.shape)) ∧
      t.shape ∈ args.map TFTensor.shape := by
  obtain ⟨a0, rest, rfl⟩ : ∃ a0 rest, args = a0 :: rest := by
    cases args with
    | nil => exact absurd rfl hne
    | cons a r => exact ⟨a, r, rfl⟩
  obtain ⟨e, he, hor⟩ :=
    collectDims_error ((a0 :: rest).map TFTensor.shape)
      ((a0 :: rest).map TFTensor.shape)
      ⟨t.shape, List.mem_map_of_mem TFTensor.shape ht, hbad⟩
  refine ⟨e, ?_, hor, List.mem_map_of_mem TFTensor.shape ht⟩
  rw [linear, he]

/-- **C7**: whenever `linear` with `bias = false` returns, the registered
variables are exactly `["Matrix"]` — the bias variable is never created — and
the result is the bare matrix product, with no additive term. -/
theorem linear_no_bias_frame (u : Sampler) (args : List TFTensor)
    (output_size : Nat) (c : ℝ) (identity : Int) (res : TFTensor)
    (vars : List String)
    (h : linear u args output_size false c identity = .ok (res, vars)) :
    vars = ["Matrix"] ∧
    ∃ a0 rest n_in_list M, args = a0 :: rest ∧
      collectDims (args.map TFTensor.shape) (args.map TFTensor.shape) =
        .ok n_in_list ∧
      fixed_initializer u n_in_list output_size identity = .ok M ∧
      res.entry = (if rest.isEmpty then
          matmulE a0.entry (n_in_list.headD 0) M.entry
        else
          matmulE (concatEntry (n_in_list.zip ((a0 :: rest).map TFTensor.entry)))
            n_in_list.sum M.entry) := by
  cases args with
  | nil => cases h
  | cons a0 rest =>
    rw [linear] at h
    split at h
    · next e heq => cases h
    · next nlist heq =>
      split at h
      · next e heq2 => cases h
      · next matrix heq2 =>
        simp only [Bool.false_eq_true, if_false] at h
        injection h with hpair
        rw [Prod.mk.injEq] at hpair
        obtain ⟨h1, h2⟩ := hpair
        subst h1
        subst h2
        exact ⟨rfl, a0, rest, nlist, matrix, rfl, heq, heq2, rfl⟩

/-- Witness for C7 at a single `(1, 1)` zero tensor, `output_size = 1`. -/
theorem linear_no_bias_frame_witness :
    ∃ res vars, linear zeroSampler [t11] 1 false 0 (-1) = .ok (res, vars) ∧
      (vars = ["Matrix"] ∧
      ∃ a0 rest n_in_list M, ([t11] : List TFTensor) = a0 :: rest ∧
        collectDims ([t11].map TFTensor.shape) ([t11].map TFTensor.shape) =
          .ok n_in_list ∧
        fixed_initializer zeroSampler n_in_list 1 (-1) = .ok M ∧
        res.entry = (if rest.isEmpty then
            matmulE a0.entry (n_in_list.headD 0) M.entry
          else
            matmulE (concatEntry (n_in_list.zip ((a0 :: rest).map TFTensor.entry)))
              n_in_list.sum M.entry)) := by
  obtain ⟨res, vars, h⟩ :
      ∃ res vars, linear zeroSampler [t11] 1 false 0 (-1) = .ok (res, vars) :=
    ⟨_, _, rfl⟩
  exact ⟨res, vars, h, linear_no_bias_frame zeroSampler [t11] 1 0 (-1) res vars h⟩

/-- Witness for C6 at a rank-1 argument. -/
theorem linear_shape_error_witness :
    ∃ e, linear zeroSampler [tbad] 1 false 0 (-1) = .error e ∧
      (e = .valueErrorRank ([tbad].map TFTensor.shape) ∨
        e = .valueErrorDim ([tbad].map TFTensor.shape)) ∧
      tbad.shape ∈ [tbad].map TFTensor.shape :=
  linear_shape_error zeroSampler [tbad] 1 false 0 (-1) (by simp) tbad (by simp)
    (Or.inl (by simp [tbad]))

/-- **C10**: calling `linear` with an empty argument list fails the
`assert args` with an AssertionError — not a ShapeError — before any shape
inspection or variable creation. -/
theorem linear_empty_args_assertion (u : Sampler) (output_size : Nat)
    (bias : Bool) (bias_start : ℝ) (identity : Int) :
    linear u [] output_size bias bias_start identity = .error .assertionError :=
  rfl

/-- **C8**: the step operation of each stub cell (`LSTMCell`,
`complex_RNNCell`, `uRNN`) raises the bare `NotImplementedError` on every input
— never a different error and never a silent default return. -/
theorem stub_cells_not_implemented (cell : steph_RNNCell)
    (inputs state : TFTensor) :
    LSTMCell.call cell inputs state = .error (.notImplementedError none) ∧
    complex_RNNCell.call cell inputs state = .error (.notImplementedError none) ∧
    uRNN.call cell inputs state = .error (.notImplementedError none) :=
  ⟨rfl, rfl, rfl⟩

/-- **C9 counterexample**: dispatching the unknown cell type `"LSTM"` raises
the bare `NotImplementedError`, whose absent message does not indicate the
unrecognized identifier. -/
theorem RNN_unknown_cell_counterexample :
    ∃ e, RNN_selectCell "LSTM" 1 1 1 = .error e ∧ ¬ e.indicates "LSTM" := by
  refine ⟨.notImplementedError none, rfl, ?_⟩
  rintro ⟨m, pre, post, hm, _⟩
  cases hm

/-- **C9** (amended): for every cell-type string other than `"tanhRNN"` and
`"IRNN"`, the dispatch helper fails with the bare `NotImplementedError` — which
carries no message naming the identifier — and never falls back to constructing
a default cell. -/
theorem RNN_unknown_cell_type (cell_type : String)
    (h1 : cell_type ≠ "tanhRNN") (h2 : cell_type ≠ "IRNN")
    (input_size state_size output_size : Nat) :
    RNN_selectCell cell_type input_size state_size output_size =
      .error (.notImplementedError none) := by
  rw [RNN_selectCell, if_neg h1, if_neg h2]

/-- Witness for C9 at the cell-type string `"foo"`. -/
theorem RNN_unknown_cell_type_witness :
    RNN_selectCell "foo" 1 1 1 = .error (.notImplementedError none) :=
  RNN_unknown_cell_type "foo" (by decide) (by decide) 1 1 1

/-! ### The recurrence cells -/

theorem except_bind_ok {α β : Type} (a : α) (f : α → Except PyError β) :
    (Except.ok a : Except PyError α).bind f = f a := rfl

/-- `linear` on a two-tensor argument list with known rank-2 shapes. -/
theorem linear_pair_ok (u : Sampler) (a0 a1 : TFTensor) (b0 b1 k0 k1 m : Nat)
    (h0 : a0.shape = [some b0, some k0]) (hk0 : 0 < k0)
    (h1 : a1.shape = [some b1, some k1]) (hk1 : 0 < k1)
    (c : ℝ) (identity : Int) (M : Mat)
    (hM : fixed_initializer u [k0, k1] m identity = .ok M) :
    linear u [a0, a1] m true c identity =
      .ok (⟨[some b0, some m],
        fun ρ j => matmulE (concatEntry [(k0, a0.entry), (k1, a1.entry)])
          (k0 + k1) M.entry ρ j + c⟩, ["Matrix", "Bias"]) := by
  have hgood : ∀ t ∈ ([a0, a1] : List TFTensor), GoodArg t := by
    intro t ht
    simp only [List.mem_cons, List.mem_singleton, List.not_mem_nil, or_false] at ht
    rcases ht with rfl | rfl
    · exact ⟨by rw [h0]; rfl, k0, by rw [h0]; rfl, hk0⟩
    · exact ⟨by rw [h1]; rfl, k1, by rw [h1]; rfl, hk1⟩
  have hfeat : featDims [a0, a1] = [k0, k1] := by
    simp [featDims, featDim, h0, h1]
  rw [linear_ok_spec u a0 [a1] m true c identity hgood M (by rw [hfeat]; exact hM)]
  simp [hfeat, h0]

/-- `linear` on a single tensor argument with a literal rank-2 shape. -/
theorem linear_single_ok (u : Sampler) (sh0 : Option Nat) (n m : Nat)
    (hn : 0 < n) (f : Nat → Nat → ℝ) (c : ℝ) (M : Mat)
    (hM : fixed_initializer u [n] m (-1) = .ok M) :
    linear u [⟨[sh0, some n], f⟩] m true c (-1) =
      .ok (⟨[sh0, some m], fun ρ j => matmulE f n M.entry ρ j + c⟩,
        ["Matrix", "Bias"]) := by
  have hgood : ∀ t ∈ ([⟨[sh0, some n], f⟩] : List TFTensor), GoodArg t := by
    intro t ht
    simp only [List.mem_singleton] at ht
    subst ht
    exact ⟨rfl, n, rfl, hn⟩
  rw [linear_ok_spec u ⟨[sh0, some n], f⟩ [] m true c (-1) hgood M
    (by simpa [featDims, featDim] using hM)]
  simp [featDims, featDim]

/-- **C5**: `tanhRNNCell`'s step returns
`new_state = tanh(linear([inputs, state], state_size, bias=True))` and
`output = linear(new_state, output_size, bias=True)`, both weight matrices
built by `fixed_initializer` with no identity index and the bias starting at
`0`; in particular on a zero state and zero input both `output` and `new_state`
are all-zero. -/
theorem tanhRNNCell_call_spec (cell : steph_RNNCell) (uT uO : Sampler)
    (inputs state : TFTensor) (b k bs ks : Nat)
    (hin : inputs.shape = [some b, some k]) (hk : 0 < k)
    (hst : state.shape = [some bs, some ks]) (hks : 0 < ks)
    (hs : 0 < cell.state_size) :
    ∃ output new_state MT MO,
      fixed_initializer uT [k, ks] cell.state_size (-1) = .ok MT ∧
      fixed_initializer uO [cell.state_size] cell.output_size (-1) = .ok MO ∧
      tanhRNNCell.call cell uT uO inputs state = .ok (output, new_state) ∧
      (∀ ρ j, new_state.entry ρ j =
        Real.tanh (∑ i ∈ Finset.range (k + ks),
          concatEntry [(k, inputs.entry), (ks, state.entry)] ρ i *
            MT.entry i j)) ∧
      (∀ ρ j, output.entry ρ j =
        ∑ i ∈ Finset.range cell.state_size,
          new_state.entry ρ i * MO.entry i j) ∧
      ((∀ ρ i, inputs.entry ρ i = 0) → (∀ ρ i, state.entry ρ i = 0) →
        ∀ ρ j, new_state.entry ρ j = 0 ∧ output.entry ρ j = 0) := by
  obtain ⟨MT, hMT, _, _, _⟩ :=
    fixed_initializer_spec uT [k, ks] cell.state_size (-1)
      (by intro j hj h; omega)
  obtain ⟨MO, hMO, _, _, _⟩ :=
    fixed_initializer_spec uO [cell.state_size] cell.output_size (-1)
      (by intro j hj h; omega)
  have hlin1 := linear_pair_ok uT inputs state b bs k ks cell.state_size
    hin hk hst hks 0 (-1) MT hMT
  refine ⟨⟨[some b, some cell.output_size],
      fun ρ j => matmulE (fun ρ' j' => Real.tanh
        (matmulE (concatEntry [(k, inputs.entry), (ks, state.entry)]) (k + ks)
          MT.entry ρ' j' + 0)) cell.state_size MO.entry ρ j + 0⟩,
    ⟨[some b, some cell.state_size],
      fun ρ j => Real.tanh
        (matmulE (concatEntry [(k, inputs.entry), (ks, state.entry)]) (k + ks)
          MT.entry ρ j + 0)⟩,
    MT, MO, hMT, hMO, ?_, ?_, ?_, ?_⟩
  · simp only [tanhRNNCell.call, hlin1, except_bind_ok]
    rw [linear_single_ok uO (some b) cell.state_size cell.output_size hs _ 0 MO hMO]
    rw [except_bind_ok]
  · intro ρ j
    simp [matmulE]
  · intro ρ j
    simp only [matmulE, add_zero]
  · intro h0i h0s ρ j
    have hc0 : ∀ ρ i,
        concatEntry [(k, inputs.entry), (ks, state.entry)] ρ i = 0 := by
      intro ρ i
      simp [concatEntry, h0i, h0s]
    constructor
    · simp [matmulE, hc0, Real.tanh_zero]
    · simp [matmulE, hc0, Real.tanh_zero]

/-- Witness for C5 at the `(1, 1, 1)` cell on `(1, 1)` zero tensors. -/
theorem tanhRNNCell_call_spec_witness :
    ∃ output new_state MT MO,
      fixed_initializer zeroSampler [1, 1] 1 (-1) = .ok MT ∧
      fixed_initializer zeroSampler [1] 1 (-1) = .ok MO ∧
      tanhRNNCell.call ⟨1, 1, 1⟩ zeroSampler zeroSampler t11 t11 =
        .ok (output, new_state) ∧
      (∀ ρ j, new_state.entry ρ j =
        Real.tanh (∑ i ∈ Finset.range (1 + 1),
          concatEntry [(1, t11.entry), (1, t11.entry)] ρ i * MT.entry i j)) ∧
      (∀ ρ j, output.entry ρ j =
        ∑ i ∈ Finset.range 1, new_state.entry ρ i * MO.entry i j) ∧
      ((∀ ρ i, t11.entry ρ i = 0) → (∀ ρ i, t11.entry ρ i = 0) →
        ∀ ρ j, new_state.entry ρ j = 0 ∧ output.entry ρ j = 0) :=
  tanhRNNCell_call_spec ⟨1, 1, 1⟩ zeroSampler zeroSampler t11 t11 1 1 1 1
    rfl one_pos rfl one_pos one_pos

/-- **C4**: `IRNNCell`'s step computes `new_state` as the `relu` of the fused
linear map of `[inputs, state]` whose transition matrix is built by
`fixed_initializer` with the identity index pointing at the state block
(index 1), so the sub-block multiplying the previous state is exactly the
identity matrix; in particular with zero inputs, freshly initialized parameters
and `bias_start = 0`, `new_state = relu(state)` exactly. -/
theorem IRNNCell_call_spec (cell : steph_RNNCell) (uT uO : Sampler)
    (inputs state : TFTensor) (b k bs : Nat)
    (hin : inputs.shape = [some b, some k]) (hk : 0 < k)
    (hst : state.shape = [some bs, some cell.state_size])
    (hs : 0 < cell.state_size) :
    ∃ output new_state MT,
      fixed_initializer uT [k, cell.state_size] cell.state_size 1 = .ok MT ∧
      (∀ r c, r < cell.state_size → c < cell.state_size →
        MT.entry (k + r) c = if r = c then 1 else 0) ∧
      IRNNCell.call cell uT uO inputs state = .ok (output, new_state) ∧
      (∀ ρ j, new_state.entry ρ j =
        max 0 (∑ i ∈ Finset.range (k + cell.state_size),
          concatEntry [(k, inputs.entry), (cell.state_size, state.entry)] ρ i *
            MT.entry i j)) ∧
      ((∀ ρ i, inputs.entry ρ i = 0) →
        ∀ ρ j, j < cell.state_size →
          new_state.entry ρ j = max 0 (state.entry ρ j)) := by
  obtain ⟨MT, hMT, _, _, hbT⟩ :=
    fixed_initializer_spec uT [k, cell.state_size] cell.state_size 1
      (by intro j hj h
          have hj1 : j = 1 := by omega
          subst hj1
          exact Or.inl rfl)
  obtain ⟨MO, hMO, _, _, _⟩ :=
    fixed_initializer_spec uO [cell.state_size] cell.output_size (-1)
      (by intro j hj h; omega)
  have hid : ∀ r c, r < cell.state_size → c < cell.state_size →
      MT.entry (k + r) c = if r = c then 1 else 0 := by
    intro r c hr hc
    have h := hbT 1 (by simp) r c (by simpa using hr)
    rw [show (([k, cell.state_size] : List Nat).take 1).sum = k by simp] at h
    simp only [List.get] at h
    rw [h]
    by_cases h1 : cell.state_size = 1
    · have hr0 : r = 0 := by omega
      have hc0 : c = 0 := by omega
      subst hr0; subst hc0
      simp [blockVal, h1]
    · simp [blockVal, h1]
  have hlin1 := linear_pair_ok uT inputs state b bs k cell.state_size
    cell.state_size hin hk hst hs 0 1 MT hMT
  refine ⟨⟨[some b, some cell.output_size],
      fun ρ j => matmulE (fun ρ' j' => max 0
        (matmulE (concatEntry [(k, inputs.entry), (cell.state_size, state.entry)])
          (k + cell.state_size) MT.entry ρ' j' + 0)) cell.state_size
        MO.entry ρ j + 0⟩,
    ⟨[some b, some cell.state_size],
      fun ρ j => max 0
        (matmulE (concatEntry [(k, inputs.entry), (cell.state_size, state.entry)])
          (k + cell.state_size) MT.entry ρ j + 0)⟩,
    MT, hMT, hid, ?_, ?_, ?_⟩
  · simp only [IRNNCell.call, hlin1, except_bind_ok]
    rw [linear_single_ok uO (some b) cell.state_size cell.output_size hs _ 0 MO hMO]
    rw [except_bind_ok]
  · intro ρ j
    simp [matmulE]
  · intro h0i ρ j hj
    have hsum : ∑ i ∈ Finset.range (k + cell.state_size),
        concatEntry [(k, inputs.entry), (cell.state_size, state.entry)] ρ i *
          MT.entry i j = state.entry ρ j := by
      rw [Finset.sum_range_add]
      have h1 : ∑ i ∈ Finset.range k,
          concatEntry [(k, inputs.entry), (cell.state_size, state.entry)] ρ i *
            MT.entry i j = 0 := by
        refine Finset.sum_eq_zero (fun i hi => ?_)
        rw [concatEntry, if_pos (Finset.mem_range.mp hi), h0i, zero_mul]
      have h2 : ∀ r ∈ Finset.range cell.state_size,
          concatEntry [(k, inputs.entry), (cell.state_size, state.entry)] ρ
            (k + r) * MT.entry (k + r) j
          = if r = j then state.entry ρ r else 0 := by
        intro r hr
        have hrlt := Finset.mem_range.mp hr
        rw [concatEntry, if_neg (by omega), concatEntry,
          show k + r - k = r by omega, if_pos hrlt, hid r j hrlt hj]
        by_cases hrj : r = j <;> simp [hrj]
      rw [h1, zero_add, Finset.sum_congr rfl h2,
        Finset.sum_ite_eq' (Finset.range cell.state_size) j (state.entry ρ),
        if_pos (Finset.mem_range.mpr hj)]
    simp only [matmulE, add_zero]
    rw [hsum]

/-- Witness for C4 at the `(1, 1, 1)` cell on `(1, 1)` zero tensors. -/
theorem IRNNCell_call_spec_witness :
    ∃ output new_state MT,
      fixed_initializer zeroSampler [1, 1] 1 1 = .ok MT ∧
      (∀ r c, r < 1 → c < 1 → MT.entry (1 + r) c = if r = c then 1 else 0) ∧
      IRNNCell.call ⟨1, 1, 1⟩ zeroSampler zeroSampler t11 t11 =
        .ok (output, new_state) ∧
      (∀ ρ j, new_state.entry ρ j =
        max 0 (∑ i ∈ Finset.range (1 + 1),
          concatEntry [(1, t11.entry), (1, t11.entry)] ρ i * MT.entry i j)) ∧
      ((∀ ρ i, t11.entry ρ i = 0) →
        ∀ ρ j, j < 1 → new_state.entry ρ j = max 0 (t11.entry ρ j)) :=
  IRNNCell_call_spec ⟨1, 1, 1⟩ zeroSampler zeroSampler t11 t11 1 1 1
    rfl one_pos rfl one_pos

end URNNModels
